import Mathlib

/-!
Shallow embedding of gyptest.py, the GYP test-matrix runner, together with
theorems settling the specification claims about it.

Modelling conventions:
* Python strings are Lean `String`; character-level operations (strip, split,
  basename, lexicographic comparison) are defined over `String.data` so that
  they mirror CPython semantics (code-point comparisons) and evaluate inside
  the kernel.
* The file system visible to `os.walk` / `os.path.isdir` is a finite rose
  tree (`FSTree`) respectively a finite map from path to tree (`World.isdir`).
* A child process is an abstract `Child` outcome (exit code, captured stdout
  and stderr text, elapsed thousandths of a second) supplied by an `Oracle`
  indexed by (test, format), mirroring the deterministic view of one run.
* Console output and subprocess creation are events (`Ev`) collected in
  emission order; `sys.exit(n)` and a plain `return n` both surface as the
  resulting process exit code, while an uncaught `KeyError` (unsupported
  platform) is `Except.error`, since `main` never returns in that case.
* Wall-clock durations are modelled in thousandths of a second (`Nat`), the
  exact precision that the `%.3f` conversions of the script print.
-/

namespace Gyptest

/-- Lexicographic comparison of code-point lists; mirrors how CPython
compares `str` values (element-wise by code point). -/
def charListLe : List Char → List Char → Bool
  | [], _ => true
  | _ :: _, [] => false
  | a :: as, b :: bs => if a = b then charListLe as bs else decide (a < b)

/-- Python string `<=`, used by `list.sort()` on a list of `str`. -/
def strLe (a b : String) : Bool := charListLe a.data b.data

/-- Insert into a sorted list; auxiliary step of the sorting model. -/
def orderedInsertB (le : α → α → Bool) (a : α) : List α → List α
  | [] => [a]
  | b :: l => if le a b then a :: b :: l else b :: orderedInsertB le a l

/-- Sorting model for Python `list.sort()` (stable, ascending). -/
def insertionSortB (le : α → α → Bool) : List α → List α
  | [] => []
  | a :: l => orderedInsertB le a (insertionSortB le l)

/-- Characters stripped by Python `str.strip()` (ASCII whitespace). -/
def pyIsSpace (c : Char) : Bool :=
  c = ' ' || c = '\t' || c = '\n' || c = '\r' || c = '\x0b' || c = '\x0c'

/-- Python `str.strip()`: drop leading and trailing whitespace. -/
def pyStrip (s : String) : String :=
  String.mk (((s.data.dropWhile pyIsSpace).reverse.dropWhile pyIsSpace).reverse)

/-- Auxiliary accumulator recursion behind `pySplitChar`. -/
def splitCharAux (sep : Char) : List Char → List Char → List String
  | [], acc => [String.mk acc.reverse]
  | c :: cs, acc =>
    if c = sep then String.mk acc.reverse :: splitCharAux sep cs []
    else splitCharAux sep cs (c :: acc)

/-- Python `str.split(sep)` for a single-character separator: split on every
occurrence, never merging or dropping empty fields. -/
def pySplitChar (sep : Char) (s : String) : List String := splitCharAux sep s.data []

/-- Python `str.splitlines()` restricted to the newline character: split on
every newline and drop the trailing empty field produced by a final
newline. The script only ever applies it to stripped text. -/
def pySplitlines (s : String) : List String :=
  let l := pySplitChar '\n' s
  if l.getLast? = some "" then l.dropLast else l

/-- Python `os.path.basename` on POSIX: the part after the last slash. -/
def basename (p : String) : String :=
  String.mk ((p.data.reverse.takeWhile fun c => c ≠ '/').reverse)

/-- Python `os.path.join(root, f)` on POSIX for a relative second component. -/
def pathJoin (root f : String) : String := root ++ "/" ++ f

/-- Python `str.join` on a list of strings. -/
def joinSep (sep : String) : List String → String
  | [] => ""
  | [x] => x
  | x :: y :: xs => x ++ sep ++ joinSep sep (y :: xs)

/-- Source `is_test_name(f)`: the filename starts with the fixed prefix
token and ends with the fixed extension token, case-sensitively. -/
def is_test_name (f : String) : Bool :=
  ("gyptest".data.isPrefixOf f.data) && (".py".data.reverse.isPrefixOf f.data.reverse)

/-- A directory tree as `os.walk` sees it: a name, subdirectories in listing
order, and the plain file names directly inside. -/
inductive FSTree where
  | node (name : String) (subdirs : List FSTree) (files : List String)

/-- Name component of a tree node. -/
def FSTree.name : FSTree → String
  | .node n _ _ => n

mutual

/-- Source `os.walk(directory)` (top-down): the visited (root, files) pairs,
starting at the given root path. -/
def walkTree (root : String) : FSTree → List (String × List String)
  | .node _ subdirs files => (root, files) :: walkForest root subdirs

/-- Walk each subdirectory of `root` in listing order. -/
def walkForest (root : String) : List FSTree → List (String × List String)
  | [] => []
  | t :: ts => walkTree (pathJoin root t.name) t ++ walkForest root ts

end

/-- Source `find_all_gyptest_files(directory)`: every file in the walk whose
name satisfies `is_test_name`, joined to its directory, then sorted. -/
def find_all_gyptest_files (directory : String) (tree : FSTree) : List String :=
  insertionSortB strLe
    ((walkTree directory tree).flatMap fun rf =>
      (rf.2.filter is_test_name).map fun f => pathJoin rf.1 f)

/-- The static platform-to-default-formats table of `main`, in source order. -/
def format_list_table : List (String × List String) :=
  [("aix5", ["make"]),
   ("freebsd7", ["make"]),
   ("freebsd8", ["make"]),
   ("openbsd5", ["make"]),
   ("cygwin", ["msvs"]),
   ("win32", ["msvs", "ninja"]),
   ("linux", ["make", "ninja"]),
   ("linux2", ["make", "ninja"]),
   ("linux3", ["make", "ninja"]),
   ("darwin", ["make", "ninja", "xcode"])]

/-- Dictionary lookup `table[sys.platform]`; `none` is the `KeyError` case. -/
def defaultFormats (platformId : String) : Option (List String) :=
  (format_list_table.find? fun kv => kv.1 == platformId).map fun kv => kv.2

/-- Format resolution in `main`: an explicit non-empty `--format` string is
split on commas, otherwise the platform table is consulted. -/
def formatListResolve (fmtArg platformId : String) : Option (List String) :=
  if fmtArg ≠ "" then some (pySplitChar ',' fmtArg) else defaultFormats platformId

/-- Outcome of one child process: exit code, captured raw stdout and stderr
text, and elapsed wall-clock thousandths of a second. -/
structure Child where
  returncode : Int
  stdout : String
  stderr : String
  tookMs : Nat
deriving DecidableEq

/-- Deterministic view of the children: what running (test, format) yields. -/
def Oracle : Type := String → String → Child

/-- Classification of one run pair in the report. -/
inductive ResKind where
  | ok
  | fail
  | skip
deriving DecidableEq

/-- What `run_test` hands back to `run`: classification, duration, and the
stripped captured output texts. -/
structure TestResult where
  res : ResKind
  took : Nat
  stdout : String
  stderr : String
deriving DecidableEq

/-- Source `Runner.run_test`: strip the captured streams (stderr is not
captured in verbose mode, so it collapses to the empty string), classify the
exit code (2 = skip, other non-zero = failure), and on failure produce the
`"(test) format"` identifier appended to `self.failures`. -/
def run_test (oracle : Oracle) (verbose : Bool) (test fmt : String) :
    TestResult × Option String :=
  let c := oracle test fmt
  let stdout := pyStrip c.stdout
  let stderr := pyStrip (if verbose then "" else c.stderr)
  if c.returncode = 2 then
    (⟨ResKind.skip, c.tookMs, stdout, stderr⟩, none)
  else if c.returncode ≠ 0 then
    (⟨ResKind.fail, c.tookMs, stdout, stderr⟩, some ("(" ++ test ++ ") " ++ fmt))
  else
    (⟨ResKind.ok, c.tookMs, stdout, stderr⟩, none)

/-- The status line `res % (i, test + chr(32) + fmt)` printed for a record. -/
def statusLine (k : ResKind) (i : Nat) (test fmt : String) : String :=
  match k with
  | ResKind.ok => "ok " ++ toString i ++ " " ++ test ++ " " ++ fmt
  | ResKind.fail => "not ok " ++ toString i ++ " " ++ test ++ " " ++ fmt
  | ResKind.skip => "not ok " ++ toString i ++ " # skip " ++ test ++ " " ++ fmt

/-- Zero-pad a number below 1000 to three digits. -/
def pad3 (n : Nat) : String :=
  if n < 10 then "00" ++ toString n
  else if n < 100 then "0" ++ toString n
  else toString n

/-- Render a count of thousandths with three decimals, the exact text the
`%.3f` conversions of the script produce for such values. -/
def fmt3 (ms : Nat) : String := toString (ms / 1000) ++ "." ++ pad3 (ms % 1000)

/-- The indented metadata block printed after each status line in
`Runner.run`: opening marker, duration field, the optional stdout and stderr
literal blocks, closing marker. -/
def emitBlock (t : TestResult) : List String :=
  ["  ---", "  duration_ms: " ++ fmt3 t.took]
  ++ (if t.stdout.data.length ≠ 0 then
        "  stdout: |-" :: (pySplitlines t.stdout).map (fun l => "    " ++ l)
      else [])
  ++ (if t.stderr.data.length ≠ 0 ∧ t.stderr ≠ "PASSED" then
        "  stderr: |-" :: (pySplitlines t.stderr).map (fun l => "    " ++ l)
      else [])
  ++ ["  ..."]

/-- One emitted report record: 1-based index, the pair, the test result and
the failure identifier (if any) that the pair contributed. -/
structure Record where
  idx : Nat
  test : String
  fmt : String
  result : TestResult
  failure : Option String
deriving DecidableEq

/-- The pair list of `Runner.run`: for each test, for each format. -/
def runPairs (tests formats : List String) : List (String × String) :=
  tests.flatMap fun t => formats.map fun f => (t, f)

/-- Python `enumerate(l, start)`. -/
def enumFrom (start : Nat) : List α → List (Nat × α)
  | [] => []
  | x :: xs => (start, x) :: enumFrom (start + 1) xs

/-- All records of one `Runner.run` call, in emission order. -/
def runRecords (oracle : Oracle) (verbose : Bool) (tests formats : List String) :
    List Record :=
  (enumFrom 1 (runPairs tests formats)).map fun p =>
    ⟨p.1, p.2.1, p.2.2,
     (run_test oracle verbose p.2.1 p.2.2).1,
     (run_test oracle verbose p.2.1 p.2.2).2⟩

/-- The status line of a record. -/
def Record.status (r : Record) : String := statusLine r.result.res r.idx r.test r.fmt

/-- The lines one loop iteration of `Runner.run` prints: the verbose progress
line, the status line, then the metadata block. -/
def recordLines (verbose : Bool) (r : Record) : List String :=
  (if verbose then ["# " ++ r.test ++ " " ++ r.fmt] else [])
  ++ r.status :: emitBlock r.result

/-- Full console output of `Runner.run`: protocol header, plan line with the
`len(formats) * len(tests)` pair count, then the records in order. -/
def runOutput (oracle : Oracle) (verbose : Bool) (tests formats : List String) :
    List String :=
  "TAP version 13"
    :: ("0.." ++ toString (formats.length * tests.length))
    :: (runRecords oracle verbose tests formats).flatMap (recordLines verbose)

/-- `self.failures` after `Runner.run`: the identifiers appended by
`run_test`, in emission order. -/
def runFailures (oracle : Oracle) (verbose : Bool) (tests formats : List String) :
    List String :=
  (runRecords oracle verbose tests formats).filterMap Record.failure

/-- Observable events of `main`: a stdout print, a stderr write, or the
creation of one child process. -/
inductive Ev where
  | out (s : String)
  | err (s : String)
  | spawn (test fmt : String)
deriving DecidableEq

/-- Events of one loop iteration of `Runner.run`: optional progress line,
the subprocess creation, then the printed record. -/
def recordEvents (verbose : Bool) (r : Record) : List Ev :=
  (if verbose then [Ev.out ("# " ++ r.test ++ " " ++ r.fmt)] else [])
  ++ Ev.spawn r.test r.fmt
  :: Ev.out r.status
  :: (emitBlock r.result).map Ev.out

/-- Events of a whole `Runner.run` call. -/
def runEvents (oracle : Oracle) (verbose : Bool) (tests formats : List String) :
    List Ev :=
  Ev.out "TAP version 13"
    :: Ev.out ("0.." ++ toString (formats.length * tests.length))
    :: (runRecords oracle verbose tests formats).flatMap (recordEvents verbose)

/-- Source `Runner.print_results`: the optional failure block (blank line,
pluralized header, the sorted tab-indented identifiers, blank line) followed
by the one-line summary and a final blank line. Each list element is one
`print` call. -/
def print_results (numTests tookMs : Nat) (failures : List String) : List String :=
  (if failures.length ≠ 0 then
     [""]
     ++ [if failures.length = 1 then "Failed the following test:"
         else "Failed the following " ++ toString failures.length ++ " tests:"]
     ++ ["\t" ++ joinSep "\n\t" (insertionSortB strLe failures)]
     ++ [""]
   else [])
  ++ ["Ran " ++ toString numTests ++ " tests in " ++ fmt3 tookMs ++ "s, "
        ++ toString failures.length ++ " failed."]
  ++ [""]

/-- The command-line arguments of `main` after parsing. -/
structure Args where
  all : Bool
  format : String
  gyp_option : List String
  list : Bool
  no_exec : Bool
  quiet : Bool
  verbose : Bool
  tests : List String

/-- The ambient state `main` consults: which paths are directories (and their
trees), path normalization, the platform identifier, the wall-clock duration
of the run, and the child-process oracle. -/
structure World where
  isdir : String → Option FSTree
  normpath : String → String
  platform : String
  wallMs : Nat
  oracle : Oracle

/-- The positional test arguments after the `-a` default is substituted. -/
def effectiveTests (a : Args) : List String :=
  if a.tests.isEmpty then ["test"] else a.tests

/-- The test-expansion loop of `main`: directories are expanded through
`find_all_gyptest_files`; a non-directory whose basename is not a test name
aborts with that argument; other entries pass through. -/
def expandTests (w : World) : List String → Except String (List String)
  | [] => Except.ok []
  | arg :: rest =>
    match w.isdir arg with
    | some tree =>
      match expandTests w rest with
      | Except.error e => Except.error e
      | Except.ok restT =>
        Except.ok (find_all_gyptest_files (w.normpath arg) tree ++ restT)
    | none =>
      if is_test_name (basename arg) = false then Except.error arg
      else
        match expandTests w rest with
        | Except.error e => Except.error e
        | Except.ok restT => Except.ok (arg :: restT)

/-- Source `main`, from argument validation to the final return value: the
process exit code together with the event trace, or `Except.error ()` for
the uncaught `KeyError` of an unsupported platform. The verbose
configuration banner and the informational gyp-options print, pure console
decoration irrelevant to every claim, are not part of the trace. -/
def mainRun (w : World) (a : Args) : Except Unit (Int × List Ev) :=
  if a.tests.isEmpty ∧ ¬ a.all then
    Except.ok (1, [Ev.err "Specify -a to get all tests.\n"])
  else
    match expandTests w (effectiveTests a) with
    | Except.error arg =>
      Except.ok (1, [Ev.err (arg ++ " is not a valid gyp test name.")])
    | Except.ok tests =>
      if a.list then Except.ok (0, tests.map Ev.out)
      else
        match formatListResolve a.format w.platform with
        | none => Except.error ()
        | some fl =>
          Except.ok
            ((if (runFailures w.oracle a.verbose tests fl).isEmpty then 0 else 1),
             runEvents w.oracle a.verbose tests fl
               ++ (if a.quiet then []
                   else (print_results (fl.length * tests.length) w.wallMs
                           (runFailures w.oracle a.verbose tests fl)).map Ev.out))

/-- Some effective test argument is a non-directory with an invalid name. -/
def hasInvalidArg (w : World) (a : Args) : Prop :=
  ∃ arg ∈ effectiveTests a,
    w.isdir arg = none ∧ is_test_name (basename arg) = false

/-- Some explicit command-line test argument is a non-directory with an
invalid name, the condition the claim literally states. -/
def hasInvalidCli (w : World) (a : Args) : Prop :=
  ∃ arg ∈ a.tests,
    w.isdir arg = none ∧ is_test_name (basename arg) = false

/-- The run takes place (expansion succeeds, not list-only, formats resolve)
and at least one pair fails. -/
def failsAfterExpand (w : World) (a : Args) : Prop :=
  ∃ tests fl, expandTests w (effectiveTests a) = Except.ok tests ∧
    ¬ a.list ∧ formatListResolve a.format w.platform = some fl ∧
    runFailures w.oracle a.verbose tests fl ≠ []

/-- Exit-code-1 condition as the code realizes it. -/
def mainCond (w : World) (a : Args) : Prop :=
  (a.tests.isEmpty ∧ ¬ a.all) ∨ hasInvalidArg w a ∨ failsAfterExpand w a

/-- Exit-code-1 condition as the claim states it: the invalid name must come
from the command line itself. -/
def mainCondClaimed (w : World) (a : Args) : Prop :=
  (a.tests.isEmpty ∧ ¬ a.all) ∨ hasInvalidCli w a ∨ failsAfterExpand w a

/-- Concrete deterministic oracle for the concrete instances below: the
ninja format is skipped everywhere, the second test fails elsewhere, and
everything else passes. -/
def oracleW : Oracle := fun t f =>
  if f = "ninja" then ⟨2, "", "skipped for this format", 5⟩
  else if t = "gyptest_b.py" then ⟨1, " boom ", "FAILED", 7⟩
  else ⟨0, "all good", "PASSED", 3⟩

/-- A world with no directories at all, on a Linux platform. -/
def wCex : World := ⟨fun _ => none, id, "linux", 1234, oracleW⟩

/-- A world whose platform identifier is absent from the format table. -/
def wZos : World := ⟨fun _ => none, id, "zos", 0, oracleW⟩

/-- Run-all flag given, no explicit tests. -/
def aCex : Args := ⟨true, "", [], false, false, false, false, []⟩

/-- No tests and no run-all flag. -/
def aNone : Args := ⟨false, "", [], false, false, false, false, []⟩

/-- The no-execute flag together with one valid explicit test. -/
def aNoExec : Args := ⟨false, "make", [], false, true, true, false, ["gyptest_foo.py"]⟩

/-- One explicit argument that is no directory and no valid test name. -/
def aInvalid : Args := ⟨false, "", [], false, false, false, false, ["nope.txt"]⟩

/-- One valid explicit test, default formats, on the unsupported world. -/
def aZos : Args := ⟨false, "", [], false, false, false, false, ["gyptest_x.py"]⟩

/-- A small concrete directory tree with two matching test files. -/
def treeW : FSTree :=
  FSTree.node "test" [FSTree.node "sub" [] ["gyptest_b.py", "README"]]
    ["gyptest_a.py", "zz.py"]

/-- The second record of the concrete run below: the skipped ninja pair. -/
def rSkip : Record :=
  ⟨2, "gyptest_a.py", "ninja",
   (run_test oracleW false "gyptest_a.py" "ninja").1,
   (run_test oracleW false "gyptest_a.py" "ninja").2⟩

/-- A concrete test result whose stderr is the sentinel text. -/
def tRes : TestResult := ⟨ResKind.ok, 1234, "hello", "PASSED"⟩

/-! Helper lemmas: the sorting model. -/

theorem charListLe_total : ∀ as bs, charListLe as bs || charListLe bs as := by
  intro as
  induction as with
  | nil => intro bs; simp [charListLe]
  | cons a as ih =>
    intro bs
    cases bs with
    | nil => simp [charListLe]
    | cons b bs =>
      by_cases hab : a = b
      · subst hab
        simpa [charListLe] using ih bs
      · have hne : ¬ b = a := fun h => hab h.symm
        rcases lt_trichotomy a b with h | h | h
        · simp [charListLe, hab, hne, h]
        · exact absurd h hab
        · simp [charListLe, hab, hne, h, not_lt.mpr (le_of_lt h)]

theorem charListLe_trans :
    ∀ as bs cs, charListLe as bs → charListLe bs cs → charListLe as cs := by
  intro as
  induction as with
  | nil => intro bs cs _ _; simp [charListLe]
  | cons a as ih =>
    intro bs cs h1 h2
    cases bs with
    | nil => simp [charListLe] at h1
    | cons b bs =>
      cases cs with
      | nil => simp [charListLe] at h2
      | cons c cs =>
        simp only [charListLe] at h1 h2 ⊢
        by_cases hab : a = b
        · subst hab
          simp only [if_pos rfl] at h1
          by_cases hac : a = c
          · subst hac
            simp only [if_pos rfl] at h2 ⊢
            exact ih _ _ h1 h2
          · simp only [if_neg hac] at h2 ⊢
            exact h2
        · simp only [if_neg hab] at h1
          have hab2 : a < b := of_decide_eq_true h1
          by_cases hbc : b = c
          · subst hbc
            simp only [if_neg hab] at h2 ⊢
            exact h1
          · simp only [if_neg hbc] at h2
            have hbc2 : b < c := of_decide_eq_true h2
            have hac2 : a < c := lt_trans hab2 hbc2
            simp only [if_neg (ne_of_lt hac2)]
            exact decide_eq_true hac2

theorem strLe_total (a b : String) : strLe a b || strLe b a :=
  charListLe_total a.data b.data

theorem strLe_trans (a b c : String) : strLe a b → strLe b c → strLe a c :=
  charListLe_trans a.data b.data c.data

theorem orderedInsertB_perm (le : α → α → Bool) (a : α) :
    ∀ l : List α, List.Perm (orderedInsertB le a l) (a :: l) := by
  intro l
  induction l with
  | nil => simp [orderedInsertB]
  | cons b l ih =>
    by_cases h : le a b
    · simp [orderedInsertB, h]
    · simp only [orderedInsertB, h, if_neg, Bool.not_eq_true]
      exact List.Perm.trans (ih.cons b) (List.Perm.swap a b l)

theorem insertionSortB_perm (le : α → α → Bool) :
    ∀ l : List α, List.Perm (insertionSortB le l) l := by
  intro l
  induction l with
  | nil => simp [insertionSortB]
  | cons a l ih =>
    exact List.Perm.trans (orderedInsertB_perm le a _) (ih.cons a)

theorem insertionSortB_mem (le : α → α → Bool) (l : List α) (x : α) :
    x ∈ insertionSortB le l ↔ x ∈ l :=
  (insertionSortB_perm le l).mem_iff

theorem orderedInsertB_pairwise (le : α → α → Bool)
    (htot : ∀ a b, le a b || le b a)
    (htrans : ∀ a b c, le a b → le b c → le a c) (a : α) :
    ∀ l : List α, l.Pairwise (fun x y => le x y = true) →
      (orderedInsertB le a l).Pairwise (fun x y => le x y = true) := by
  intro l
  induction l with
  | nil => simp [orderedInsertB]
  | cons b l ih =>
    intro hl
    rcases List.pairwise_cons.mp hl with ⟨hb, hl2⟩
    by_cases h : le a b = true
    · simp only [orderedInsertB, h, if_pos]
      refine List.pairwise_cons.mpr ⟨?_, hl⟩
      intro x hx
      rcases List.mem_cons.mp hx with heq | hx
      · rw [heq]; exact h
      · exact htrans a b x h (hb x hx)
    · simp only [orderedInsertB, h, if_neg, Bool.not_eq_true]
      refine List.pairwise_cons.mpr ⟨?_, ih hl2⟩
      intro x hx
      have hx2 := (orderedInsertB_perm le a l).mem_iff.mp hx
      rcases List.mem_cons.mp hx2 with heq | hx2
      · have h2 := htot a b
        simp [h] at h2
        rw [heq]
        exact h2
      · exact hb x hx2

theorem insertionSortB_pairwise (le : α → α → Bool)
    (htot : ∀ a b, le a b || le b a)
    (htrans : ∀ a b c, le a b → le b c → le a c) :
    ∀ l : List α, (insertionSortB le l).Pairwise (fun x y => le x y = true) := by
  intro l
  induction l with
  | nil => simp [insertionSortB]
  | cons a l ih =>
    exact orderedInsertB_pairwise le htot htrans a _ ih

/-! Helper lemmas: enumeration and the pair list. -/

theorem enumFrom_length (start : Nat) :
    ∀ l : List α, (enumFrom start l).length = l.length := by
  intro l
  induction l generalizing start with
  | nil => simp [enumFrom]
  | cons x xs ih => simp [enumFrom, ih]

theorem enumFrom_map_fst (start : Nat) :
    ∀ l : List α, (enumFrom start l).map Prod.fst = List.range' start l.length := by
  intro l
  induction l generalizing start with
  | nil => simp [enumFrom]
  | cons x xs ih => simp [enumFrom, List.range'_succ, ih]

theorem enumFrom_map_snd (start : Nat) :
    ∀ l : List α, (enumFrom start l).map Prod.snd = l := by
  intro l
  induction l generalizing start with
  | nil => simp [enumFrom]
  | cons x xs ih => simp [enumFrom, ih]

theorem runPairs_length (tests formats : List String) :
    (runPairs tests formats).length = tests.length * formats.length := by
  induction tests with
  | nil => simp [runPairs]
  | cons t ts ih =>
    simp only [runPairs, List.flatMap_cons] at ih ⊢
    simp [ih, Nat.succ_mul, Nat.add_comm]

theorem filterMap_eq_filter_map (f : α → Option β) (p : α → Bool) (g : α → β) :
    ∀ l : List α, (∀ x ∈ l, f x = if p x then some (g x) else none) →
      l.filterMap f = (l.filter p).map g := by
  intro l
  induction l with
  | nil => simp
  | cons x xs ih =>
    intro h
    have hx := h x (List.mem_cons_self x xs)
    have hxs := ih fun y hy => h y (List.mem_cons_of_mem x hy)
    by_cases hp : p x
    · simp [List.filterMap_cons, List.filter_cons, hp, hx, hxs]
    · simp [List.filterMap_cons, List.filter_cons, hp, hx, hxs]

/-! Helper lemmas: strings. -/

theorem str_ne_empty_iff (s : String) : s ≠ "" ↔ s.data.length ≠ 0 := by
  constructor
  · intro h hl
    exact h (by
      cases s with
      | mk d =>
        cases d with
        | nil => rfl
        | cons c cs => simp at hl)
  · intro h he
    rw [he] at h
    simp at h

theorem indent_ne (l : String) (m : String)
    (hm : m.data.take 4 ≠ [' ', ' ', ' ', ' ']) : ("    " ++ l) ≠ m := by
  intro h
  apply hm
  rw [← h]
  have hd : ("    " ++ l).data = ' ' :: ' ' :: ' ' :: ' ' :: l.data := by
    rw [String.data_append]; rfl
  rw [hd]
  rfl

theorem duration_ne_stdout_marker (s : String) :
    ("  duration_ms: " ++ s) ≠ "  stdout: |-" := by
  intro h
  have h2 := congrArg (fun t => t.data.take 4) h
  simp only [String.data_append] at h2
  simp at h2

theorem duration_ne_stderr_marker (s : String) :
    ("  duration_ms: " ++ s) ≠ "  stderr: |-" := by
  intro h
  have h2 := congrArg (fun t => t.data.take 4) h
  simp only [String.data_append] at h2
  simp at h2

/-! Helper lemmas: the executor and the record list. -/

theorem run_test_failure_characterization (oracle : Oracle) (verbose : Bool)
    (test fmt : String) :
    (run_test oracle verbose test fmt).2
      = (if (run_test oracle verbose test fmt).1.res = ResKind.fail
         then some ("(" ++ test ++ ") " ++ fmt) else none) := by
  unfold run_test
  by_cases h2 : (oracle test fmt).returncode = 2
  · simp [h2]
  · by_cases h0 : (oracle test fmt).returncode = 0
    · simp [h2, h0]
    · simp [h2, h0]

theorem runRecords_mem (oracle : Oracle) (verbose : Bool)
    (tests formats : List String) (r : Record)
    (hr : r ∈ runRecords oracle verbose tests formats) :
    r.result = (run_test oracle verbose r.test r.fmt).1
    ∧ r.failure = (run_test oracle verbose r.test r.fmt).2 := by
  unfold runRecords at hr
  rcases List.mem_map.mp hr with ⟨p, _, hp⟩
  rw [← hp]
  exact ⟨rfl, rfl⟩

theorem runFailures_eq_filter (oracle : Oracle) (verbose : Bool)
    (tests formats : List String) :
    runFailures oracle verbose tests formats
      = ((runRecords oracle verbose tests formats).filter
          fun rec => decide (rec.result.res = ResKind.fail)).map
          fun rec => "(" ++ rec.test ++ ") " ++ rec.fmt := by
  unfold runFailures
  apply filterMap_eq_filter_map
  intro r hr
  rcases runRecords_mem oracle verbose tests formats r hr with ⟨hres, hfail⟩
  rw [hfail, run_test_failure_characterization, ← hres]
  by_cases h : r.result.res = ResKind.fail
  · simp [h]
  · simp [h]

/-! Helper lemmas: the test-expansion loop of main. -/

theorem expandTests_error_iff (w : World) :
    ∀ l : List String,
      (∃ e, expandTests w l = Except.error e) ↔
        ∃ arg ∈ l, w.isdir arg = none ∧ is_test_name (basename arg) = false := by
  intro l
  induction l with
  | nil => simp [expandTests]
  | cons arg rest ih =>
    constructor
    · rintro ⟨e, he⟩
      unfold expandTests at he
      cases hdir : w.isdir arg with
      | some tree =>
        rw [hdir] at he
        cases hrec : expandTests w rest with
        | error e2 =>
          rcases ih.mp ⟨e2, hrec⟩ with ⟨a2, ha2, hcond⟩
          exact ⟨a2, List.mem_cons_of_mem _ ha2, hcond⟩
        | ok restT => rw [hrec] at he; cases he
      | none =>
        rw [hdir] at he
        by_cases hname : is_test_name (basename arg) = false
        · exact ⟨arg, List.mem_cons_self _ _, hdir, hname⟩
        · rw [if_neg hname] at he
          cases hrec : expandTests w rest with
          | error e2 =>
            rcases ih.mp ⟨e2, hrec⟩ with ⟨a2, ha2, hcond⟩
            exact ⟨a2, List.mem_cons_of_mem _ ha2, hcond⟩
          | ok restT => rw [hrec] at he; cases he
    · rintro ⟨a2, ha2, hd2, hn2⟩
      rcases List.mem_cons.mp ha2 with heq | ha3
      · refine ⟨arg, ?_⟩
        unfold expandTests
        rw [← heq, hd2, if_pos hn2, heq]
      · rcases ih.mpr ⟨a2, ha3, hd2, hn2⟩ with ⟨e, he⟩
        unfold expandTests
        cases hdir : w.isdir arg with
        | some tree => exact ⟨e, by rw [he]⟩
        | none =>
          by_cases hname : is_test_name (basename arg) = false
          · exact ⟨arg, by rw [if_pos hname]⟩
          · exact ⟨e, by rw [if_neg hname, he]⟩

theorem expandTests_ok_not_invalid (w : World) (l : List String) (ts : List String)
    (h : expandTests w l = Except.ok ts) :
    ¬ ∃ arg ∈ l, w.isdir arg = none ∧ is_test_name (basename arg) = false := by
  intro hinv
  rcases (expandTests_error_iff w l).mpr hinv with ⟨e, he⟩
  rw [h] at he
  cases he

theorem runRecords_map_pair (oracle : Oracle) (verbose : Bool)
    (tests formats : List String) :
    ((runRecords oracle verbose tests formats).map fun r => (r.test, r.fmt))
      = runPairs tests formats := by
  unfold runRecords
  rw [List.map_map]
  have h : ((fun r : Record => (r.test, r.fmt)) ∘ fun p : Nat × String × String =>
      (⟨p.1, p.2.1, p.2.2, (run_test oracle verbose p.2.1 p.2.2).1,
        (run_test oracle verbose p.2.1 p.2.2).2⟩ : Record)) = Prod.snd := by
    funext p
    rfl
  rw [h, enumFrom_map_snd]

/-! The claims. -/

/-- C1: for every run pair, the exit code of the child determines the status
line and the failure recording: exit 0 gives an `ok <index> <test> <format>`
line and records nothing; exit 2 gives a `not ok <index> # skip <test>
<format>` line and records nothing; any other non-zero exit gives a
`not ok <index> <test> <format>` line, and the failure log is exactly one
`(test) format` identifier per such failing record. -/
theorem run_pair_exit_code_classification (oracle : Oracle) (verbose : Bool)
    (tests formats : List String) (r : Record)
    (hr : r ∈ runRecords oracle verbose tests formats) :
    ((oracle r.test r.fmt).returncode = 0 →
       r.status = "ok " ++ toString r.idx ++ " " ++ r.test ++ " " ++ r.fmt
       ∧ r.failure = none)
    ∧ ((oracle r.test r.fmt).returncode = 2 →
       r.status = "not ok " ++ toString r.idx ++ " # skip " ++ r.test ++ " " ++ r.fmt
       ∧ r.failure = none)
    ∧ ((oracle r.test r.fmt).returncode ≠ 0 ∧ (oracle r.test r.fmt).returncode ≠ 2 →
       r.status = "not ok " ++ toString r.idx ++ " " ++ r.test ++ " " ++ r.fmt
       ∧ r.failure = some ("(" ++ r.test ++ ") " ++ r.fmt))
    ∧ runFailures oracle verbose tests formats
        = ((runRecords oracle verbose tests formats).filter
            fun rec => decide (rec.result.res = ResKind.fail)).map
            fun rec => "(" ++ rec.test ++ ") " ++ rec.fmt := by
  rcases runRecords_mem oracle verbose tests formats r hr with ⟨hres, hfail⟩
  refine ⟨?_, ?_, ?_, runFailures_eq_filter oracle verbose tests formats⟩
  · intro h0
    have hres2 : r.result.res = ResKind.ok := by
      rw [hres]; simp [run_test, h0]
    refine ⟨by simp [Record.status, statusLine, hres2], ?_⟩
    rw [hfail]; simp [run_test, h0]
  · intro h2
    have hres2 : r.result.res = ResKind.skip := by
      rw [hres]; simp [run_test, h2]
    refine ⟨by simp [Record.status, statusLine, hres2], ?_⟩
    rw [hfail]; simp [run_test, h2]
  · rintro ⟨h0, h2⟩
    have hres2 : r.result.res = ResKind.fail := by
      rw [hres]; simp [run_test, h0, h2]
    refine ⟨by simp [Record.status, statusLine, hres2], ?_⟩
    rw [hfail]; simp [run_test, h0, h2]

/-- C1 witness: in the concrete run the skipped ninja record carries the
skip status line and no failure identifier. -/
theorem run_pair_exit_code_classification_witness :
    rSkip.failure = none
    ∧ rSkip.status = "not ok 2 # skip gyptest_a.py ninja" := by
  have h := run_pair_exit_code_classification oracleW false
    ["gyptest_a.py", "gyptest_b.py"] ["make", "ninja"] rSkip (by decide)
  have h2 := h.2.1 (by decide)
  exact ⟨h2.2, by rw [h2.1]; decide⟩

/-- C2: a run over tests T and formats F produces exactly
`len(F) * len(T)` records, the plan line (second output line) declares
exactly that count, and the record indices are the contiguous 1-based
sequence in emission order, whatever the individual outcomes are. -/
theorem run_emits_full_matrix_with_plan (oracle : Oracle) (verbose : Bool)
    (tests formats : List String) :
    (runRecords oracle verbose tests formats).length = formats.length * tests.length
    ∧ (runOutput oracle verbose tests formats)[1]?
        = some ("0.." ++ toString (formats.length * tests.length))
    ∧ (runRecords oracle verbose tests formats).map Record.idx
        = List.range' 1 (formats.length * tests.length) := by
  refine ⟨?_, ?_, ?_⟩
  · unfold runRecords
    rw [List.length_map, enumFrom_length, runPairs_length, Nat.mul_comm]
  · simp [runOutput]
  · unfold runRecords
    rw [List.map_map]
    have h : (Record.idx ∘ fun p : Nat × String × String =>
        (⟨p.1, p.2.1, p.2.2, (run_test oracle verbose p.2.1 p.2.2).1,
          (run_test oracle verbose p.2.1 p.2.2).2⟩ : Record)) = Prod.fst := by
      funext p
      rfl
    rw [h, enumFrom_map_fst, runPairs_length, Nat.mul_comm]

/-- C3: the run iterates the cross-product of tests and formats in
test-major order; concretely, two tests by two formats give exactly the four
records (1,a,make), (2,a,ninja), (3,b,make), (4,b,ninja). -/
theorem run_cross_product_test_major (oracle : Oracle) (verbose : Bool) :
    ((runRecords oracle verbose ["gyptest_a.py", "gyptest_b.py"]
        ["make", "ninja"]).map fun r => (r.idx, r.test, r.fmt))
      = [(1, "gyptest_a.py", "make"), (2, "gyptest_a.py", "ninja"),
         (3, "gyptest_b.py", "make"), (4, "gyptest_b.py", "ninja")]
    ∧ ∀ tests formats : List String,
        ((runRecords oracle verbose tests formats).map fun r => (r.test, r.fmt))
          = tests.flatMap fun t => formats.map fun f => (t, f) := by
  constructor
  · simp [runRecords, runPairs, enumFrom]
  · intro tests formats
    exact runRecords_map_pair oracle verbose tests formats

theorem indent_ne_stdout_marker (l : String) : ("    " ++ l) ≠ "  stdout: |-" :=
  indent_ne l _ (by decide)

theorem indent_ne_stderr_marker (l : String) : ("    " ++ l) ≠ "  stderr: |-" :=
  indent_ne l _ (by decide)

theorem stdout_marker_ne_duration (s : String) :
    "  stdout: |-" ≠ ("  duration_ms: " ++ s) :=
  fun h => duration_ne_stdout_marker s h.symm

theorem stderr_marker_ne_duration (s : String) :
    "  stderr: |-" ≠ ("  duration_ms: " ++ s) :=
  fun h => duration_ne_stderr_marker s h.symm

theorem stdout_marker_ne_indent (l : String) : "  stdout: |-" ≠ ("    " ++ l) :=
  fun h => indent_ne_stdout_marker l h.symm

theorem stderr_marker_ne_indent (l : String) : "  stderr: |-" ≠ ("    " ++ l) :=
  fun h => indent_ne_stderr_marker l h.symm

/-- C7: the discoverer is sorted (lexicographically by full path), is a
permutation of the matching files of the walk, contains exactly the files of
the tree whose name passes `is_test_name`, joined below their directory,
and is idempotent. -/
theorem find_all_gyptest_files_spec (d : String) (t : FSTree) :
    List.Pairwise (fun a b => strLe a b = true) (find_all_gyptest_files d t)
    ∧ List.Perm (find_all_gyptest_files d t)
        ((walkTree d t).flatMap fun rf =>
          (rf.2.filter is_test_name).map fun f => pathJoin rf.1 f)
    ∧ (∀ p, p ∈ find_all_gyptest_files d t ↔
        ∃ rf ∈ walkTree d t, ∃ f ∈ rf.2, is_test_name f = true ∧ p = pathJoin rf.1 f)
    ∧ find_all_gyptest_files d t = find_all_gyptest_files d t := by
  refine ⟨?_, ?_, ?_, rfl⟩
  · exact insertionSortB_pairwise strLe strLe_total strLe_trans _
  · exact insertionSortB_perm strLe _
  · intro p
    unfold find_all_gyptest_files
    rw [insertionSortB_mem]
    constructor
    · intro hp
      rcases List.mem_flatMap.mp hp with ⟨rf, hrf, hprf⟩
      rcases List.mem_map.mp hprf with ⟨f, hf, hpf⟩
      rcases List.mem_filter.mp hf with ⟨hfmem, hfname⟩
      exact ⟨rf, hrf, f, hfmem, hfname, hpf.symm⟩
    · rintro ⟨rf, hrf, f, hfmem, hfname, hpf⟩
      refine List.mem_flatMap.mpr ⟨rf, hrf, ?_⟩
      exact List.mem_map.mpr ⟨f, List.mem_filter.mpr ⟨hfmem, hfname⟩, hpf.symm⟩

/-- C7 witness: on a concrete two-level tree the discoverer returns the two
matching files, sorted, and the sortedness instance of the theorem holds. -/
theorem find_all_gyptest_files_spec_witness :
    List.Pairwise (fun a b => strLe a b = true) (find_all_gyptest_files "test" treeW)
    ∧ find_all_gyptest_files "test" treeW
        = ["test/gyptest_a.py", "test/sub/gyptest_b.py"] :=
  ⟨(find_all_gyptest_files_spec "test" treeW).1, by decide⟩

/-- C8: an explicit non-empty format string resolves to its comma-split
fields in order with no deduplication; with no explicit string the platform
table decides, and an absent platform key makes the resolution empty and
`main` abort through the unhandled lookup failure. -/
theorem format_resolution_spec (fmtArg platformId : String) :
    (fmtArg ≠ "" → formatListResolve fmtArg platformId = some (pySplitChar ',' fmtArg))
    ∧ (fmtArg = "" →
        ((formatListResolve fmtArg platformId).isNone = true ↔
          ∀ kv ∈ format_list_table, kv.1 ≠ platformId))
    ∧ (∀ (w : World) (a : Args) (tests : List String),
        ¬ (a.tests.isEmpty ∧ ¬ a.all) →
        expandTests w (effectiveTests a) = Except.ok tests →
        a.list = false →
        a.format = "" →
        defaultFormats w.platform = none →
        mainRun w a = Except.error ()) := by
  refine ⟨?_, ?_, ?_⟩
  · intro h
    simp [formatListResolve, h]
  · intro h
    subst h
    simp [formatListResolve, defaultFormats, Option.isNone_iff_eq_none,
      List.find?_eq_none]
  · intro w a tests h1 hexp hlist hfmt hdef
    unfold mainRun
    rw [if_neg h1, hexp]
    rw [hlist]
    simp only [Bool.false_eq_true, if_false]
    rw [hfmt]
    simp [formatListResolve, hdef]

/-- C8 witness: a duplicated explicit list is preserved verbatim, an unknown
platform resolves to nothing, and main aborts on it. -/
theorem format_resolution_spec_witness :
    formatListResolve "make,make" "zos" = some ["make", "make"]
    ∧ (formatListResolve "" "zos").isNone = true
    ∧ mainRun wZos aZos = Except.error () := by
  refine ⟨?_, ?_, ?_⟩
  · have h := (format_resolution_spec "make,make" "zos").1 (by decide)
    rw [h]
    decide
  · exact ((format_resolution_spec "" "zos").2.1 rfl).mpr (by decide)
  · exact (format_resolution_spec "" "zos").2.2 wZos aZos ["gyptest_x.py"]
      (by decide) (by rfl) rfl rfl (by decide)

/-- C10: every metadata block opens with the marker line, carries the
three-decimal duration field second, closes with the closing marker, holds a
stdout literal block exactly when the stripped stdout is non-empty, and
holds a stderr literal block exactly when the stripped stderr is non-empty
and differs from the sentinel text. -/
theorem metadata_block_structure (t : TestResult) :
    (emitBlock t).head? = some "  ---"
    ∧ (emitBlock t).tail.head? = some ("  duration_ms: " ++ fmt3 t.took)
    ∧ (emitBlock t).getLast? = some "  ..."
    ∧ ("  stdout: |-" ∈ emitBlock t ↔ t.stdout ≠ "")
    ∧ ("  stderr: |-" ∈ emitBlock t ↔ (t.stderr ≠ "" ∧ t.stderr ≠ "PASSED")) := by
  refine ⟨rfl, rfl, ?_, ?_, ?_⟩
  · unfold emitBlock
    exact List.getLast?_concat _
  · by_cases hso : t.stdout.data.length ≠ 0
    · apply iff_of_true ?_ ((str_ne_empty_iff t.stdout).mpr hso)
      unfold emitBlock
      rw [if_pos hso]
      simp
    · apply iff_of_false ?_ fun h => hso ((str_ne_empty_iff t.stdout).mp h)
      intro hmem
      unfold emitBlock at hmem
      rw [if_neg hso] at hmem
      by_cases hse : t.stderr.data.length ≠ 0 ∧ t.stderr ≠ "PASSED"
      · rw [if_pos hse] at hmem
        simp [stdout_marker_ne_duration, stdout_marker_ne_indent,
          indent_ne_stdout_marker] at hmem
      · rw [if_neg hse] at hmem
        simp [stdout_marker_ne_duration] at hmem
  · by_cases hse : t.stderr.data.length ≠ 0 ∧ t.stderr ≠ "PASSED"
    · apply iff_of_true ?_ ⟨(str_ne_empty_iff t.stderr).mpr hse.1, hse.2⟩
      unfold emitBlock
      rw [if_pos hse]
      by_cases hso : t.stdout.data.length ≠ 0
      · rw [if_pos hso]
        simp
      · rw [if_neg hso]
        simp
    · apply iff_of_false ?_
        fun h => hse ⟨(str_ne_empty_iff t.stderr).mp h.1, h.2⟩
      intro hmem
      unfold emitBlock at hmem
      rw [if_neg hse] at hmem
      by_cases hso : t.stdout.data.length ≠ 0
      · rw [if_pos hso] at hmem
        simp [stderr_marker_ne_duration, stderr_marker_ne_indent,
          indent_ne_stderr_marker] at hmem
      · rw [if_neg hso] at hmem
        simp [stderr_marker_ne_duration] at hmem

/-- C10 witness: the structure theorem instantiated at a concrete result
whose stderr equals the sentinel, so that no stderr block is present. -/
theorem metadata_block_structure_witness :
    ("  stdout: |-" ∈ emitBlock tRes ↔ tRes.stdout ≠ "")
    ∧ ("  stderr: |-" ∈ emitBlock tRes ↔ (tRes.stderr ≠ "" ∧ tRes.stderr ≠ "PASSED"))
    ∧ (emitBlock tRes).head? = some "  ---" :=
  ⟨(metadata_block_structure tRes).2.2.2.1,
   (metadata_block_structure tRes).2.2.2.2,
   (metadata_block_structure tRes).1⟩

/-- C9: print_results prints no failure block when the log is empty, prints
the pluralized header and the lexicographically sorted identifiers when it
is non-empty, always prints the one-line summary with the total pair count,
the three-decimal elapsed time and the failure count, and that count equals
the number of failing (non-skip, non-ok) records of the run. -/
theorem print_results_spec (numTests tookMs : Nat) (failures : List String)
    (oracle : Oracle) (verbose : Bool) (tests formats : List String) :
    (failures = [] →
       print_results numTests tookMs failures
         = ["Ran " ++ toString numTests ++ " tests in " ++ fmt3 tookMs ++ "s, "
              ++ toString failures.length ++ " failed.", ""])
    ∧ (failures.length = 1 →
       "Failed the following test:" ∈ print_results numTests tookMs failures)
    ∧ (failures ≠ [] → failures.length ≠ 1 →
       ("Failed the following " ++ toString failures.length ++ " tests:")
         ∈ print_results numTests tookMs failures)
    ∧ (failures ≠ [] →
       ("\t" ++ joinSep "\n\t" (insertionSortB strLe failures))
         ∈ print_results numTests tookMs failures
       ∧ List.Pairwise (fun a b => strLe a b = true) (insertionSortB strLe failures)
       ∧ List.Perm (insertionSortB strLe failures) failures)
    ∧ ("Ran " ++ toString numTests ++ " tests in " ++ fmt3 tookMs ++ "s, "
          ++ toString failures.length ++ " failed.")
        ∈ print_results numTests tookMs failures
    ∧ (runFailures oracle verbose tests formats).length
        = (runRecords oracle verbose tests formats).countP
            (fun rec => decide (rec.result.res = ResKind.fail)) := by
  refine ⟨?_, ?_, ?_, ?_, ?_, ?_⟩
  · intro h
    subst h
    simp [print_results]
  · intro h1
    have hne : failures.length ≠ 0 := by rw [h1]; decide
    simp [print_results, hne, h1]
  · intro hne h1
    have hlen : failures.length ≠ 0 := fun h => hne (List.length_eq_zero.mp h)
    simp [print_results, hlen, h1]
  · intro hne
    have hlen : failures.length ≠ 0 := fun h => hne (List.length_eq_zero.mp h)
    exact ⟨by simp [print_results, hlen],
      insertionSortB_pairwise strLe strLe_total strLe_trans _,
      insertionSortB_perm strLe _⟩
  · by_cases hlen : failures.length ≠ 0
    · simp [print_results, hlen]
    · simp [print_results, hlen]
  · rw [runFailures_eq_filter, List.length_map, List.countP_eq_length_filter]

/-- C9 witness: concrete empty and singleton failure logs. -/
theorem print_results_spec_witness :
    print_results 4 1234 [] = ["Ran 4 tests in 1.234s, 0 failed.", ""]
    ∧ "Failed the following test:"
        ∈ print_results 4 1234 ["(gyptest_b.py) make"] := by
  constructor
  · have h := (print_results_spec 4 1234 [] oracleW false [] []).1 rfl
    rw [h]
    decide
  · exact (print_results_spec 4 1234 ["(gyptest_b.py) make"] oracleW
      false [] []).2.1 (by decide)

/-- The no-execute flag is parsed but never consulted: main behaves
identically with it set and cleared. -/
theorem mainRun_ignores_no_exec (w : World) (b1 : Bool) (s : String)
    (l1 : List String) (b2 b3 b4 : Bool) (ts : List String) :
    mainRun w ⟨b1, s, l1, b2, true, b3, b4, ts⟩
      = mainRun w ⟨b1, s, l1, b2, false, b3, b4, ts⟩ := rfl

/-- C4: with the no-execute flag set and one valid test, main still creates
the child process (and no command line is printed in its place): the run
with the flag spawns the pair. The claim that execution is suppressed is
contradicted by the code, whose own help text promises the suppression. -/
theorem no_exec_flag_still_spawns :
    aNoExec.no_exec = true
    ∧ mainRun wCex aNoExec
        = Except.ok (0, runEvents wCex.oracle aNoExec.verbose
            ["gyptest_foo.py"] ["make"] ++ [])
    ∧ Ev.spawn "gyptest_foo.py" "make"
        ∈ runEvents wCex.oracle aNoExec.verbose ["gyptest_foo.py"] ["make"] ++ [] := by
  refine ⟨rfl, ?_, ?_⟩
  · rfl
  · decide

/-- C5 (amended): main returns exit code 1 exactly when at least one pair
failed, or no tests were specified without the run-all flag, or one of the
effective test arguments (the explicit ones, or the default path substituted
by the run-all flag) is a non-directory with an invalid test name; in the
input-error cases the error goes to standard error and no subprocess is
created; any other completed run returns 0. -/
theorem main_exit_code_one_iff (w : World) (a : Args) (code : Int) (tr : List Ev)
    (h : mainRun w a = Except.ok (code, tr)) :
    (code = 1 ↔ mainCond w a)
    ∧ (code ≠ 1 → code = 0)
    ∧ ((a.tests.isEmpty ∧ ¬ a.all) ∨ hasInvalidArg w a →
        (∃ s, Ev.err s ∈ tr) ∧ ∀ t f, Ev.spawn t f ∉ tr) := by
  by_cases h1 : a.tests.isEmpty ∧ ¬ a.all
  · unfold mainRun at h
    rw [if_pos h1] at h
    simp only [Except.ok.injEq, Prod.mk.injEq] at h
    obtain ⟨hcode, htr⟩ := h
    subst hcode
    subst htr
    exact ⟨iff_of_true rfl (Or.inl h1), fun hne => absurd rfl hne,
      fun _ => ⟨⟨_, List.mem_singleton_self _⟩, by simp⟩⟩
  · unfold mainRun at h
    rw [if_neg h1] at h
    cases hexp : expandTests w (effectiveTests a) with
    | error arg =>
      rw [hexp] at h
      dsimp only at h
      simp only [Except.ok.injEq, Prod.mk.injEq] at h
      obtain ⟨hcode, htr⟩ := h
      subst hcode
      subst htr
      have hinv : hasInvalidArg w a :=
        (expandTests_error_iff w (effectiveTests a)).mp ⟨arg, hexp⟩
      exact ⟨iff_of_true rfl (Or.inr (Or.inl hinv)), fun hne => absurd rfl hne,
        fun _ => ⟨⟨_, List.mem_singleton_self _⟩, by simp⟩⟩
    | ok tests =>
      rw [hexp] at h
      dsimp only at h
      have hninv : ¬ hasInvalidArg w a := fun hinv =>
        expandTests_ok_not_invalid w _ tests hexp hinv
      by_cases hlist : a.list
      · rw [if_pos hlist] at h
        simp only [Except.ok.injEq, Prod.mk.injEq] at h
        obtain ⟨hcode, htr⟩ := h
        subst hcode
        subst htr
        have hnc : ¬ mainCond w a := by
          rintro (hc | hc | hc)
          · exact h1 hc
          · exact hninv hc
          · rcases hc with ⟨ts2, fl2, _, hnl, _, _⟩
            exact hnl hlist
        refine ⟨iff_of_false (by decide) hnc, fun _ => rfl, ?_⟩
        rintro (hc | hc)
        · exact absurd hc h1
        · exact absurd hc hninv
      · rw [if_neg hlist] at h
        cases hres : formatListResolve a.format w.platform with
        | none =>
          rw [hres] at h
          dsimp only at h
          cases h
        | some fl =>
          rw [hres] at h
          dsimp only at h
          simp only [Except.ok.injEq, Prod.mk.injEq] at h
          obtain ⟨hcode, htr⟩ := h
          by_cases hfail : (runFailures w.oracle a.verbose tests fl).isEmpty
          · rw [if_pos hfail] at hcode
            subst hcode
            have hnc : ¬ mainCond w a := by
              rintro (hc | hc | hc)
              · exact h1 hc
              · exact hninv hc
              · rcases hc with ⟨ts2, fl2, he2, hnl, hr2, hne2⟩
                rw [hexp] at he2
                injection he2 with he3
                rw [hres] at hr2
                injection hr2 with hr3
                apply hne2
                rw [← he3, ← hr3]
                exact List.isEmpty_iff.mp hfail
            refine ⟨iff_of_false (by decide) hnc, fun _ => rfl, ?_⟩
            rintro (hc | hc)
            · exact absurd hc h1
            · exact absurd hc hninv
          · rw [if_neg hfail] at hcode
            subst hcode
            have hcond : mainCond w a := by
              refine Or.inr (Or.inr ⟨tests, fl, hexp, hlist, hres, fun hnil => ?_⟩)
              rw [hnil] at hfail
              exact hfail rfl
            refine ⟨iff_of_true rfl hcond, fun hne => absurd rfl hne, ?_⟩
            rintro (hc | hc)
            · exact absurd hc h1
            · exact absurd hc hninv

/-- C5 witness: the amended theorem applied to the run with no tests and no
run-all flag. -/
theorem main_exit_code_one_iff_witness :
    ((1 : Int) = 1 ↔ mainCond wCex aNone)
    ∧ ((1 : Int) ≠ 1 → (1 : Int) = 0)
    ∧ ((aNone.tests.isEmpty ∧ ¬ aNone.all) ∨ hasInvalidArg wCex aNone →
        (∃ s, Ev.err s ∈ [Ev.err "Specify -a to get all tests.\n"])
        ∧ ∀ t f, Ev.spawn t f ∉ [Ev.err "Specify -a to get all tests.\n"]) :=
  main_exit_code_one_iff wCex aNone 1 [Ev.err "Specify -a to get all tests.\n"] rfl

/-- C5 counterexample: with the run-all flag, no explicit tests, and a world
where the default path is not a directory, main returns exit code 1 although
no pair failed, tests were effectively requested via the flag, and no
invalid name was given on the command line: the claimed equivalence fails. -/
theorem main_exit_code_one_iff_counterexample :
    ¬ (∀ (w : World) (a : Args) (code : Int) (tr : List Ev),
        mainRun w a = Except.ok (code, tr) → (code = 1 ↔ mainCondClaimed w a)) := by
  intro hclaim
  have hrun : mainRun wCex aCex
      = Except.ok (1, [Ev.err "test is not a valid gyp test name."]) := rfl
  have h2 := (hclaim wCex aCex 1 _ hrun).mp rfl
  rcases h2 with hc | hc | hc
  · exact (by decide : ¬ (aCex.tests.isEmpty ∧ ¬ aCex.all)) hc
  · rcases hc with ⟨arg, harg, _⟩
    exact List.not_mem_nil arg harg
  · rcases hc with ⟨ts2, fl2, he2, _⟩
    have he3 : expandTests wCex (effectiveTests aCex) = Except.error "test" := rfl
    rw [he3] at he2
    cases he2

/-- C6: an explicit positional argument that is no directory and whose
basename fails the naming convention makes main return exit code 1 with an
error written to standard error and no subprocess created. -/
theorem invalid_test_name_fatal (w : World) (a : Args) (arg : String)
    (hmem : arg ∈ a.tests) (hdir : w.isdir arg = none)
    (hname : is_test_name (basename arg) = false) :
    ∃ tr, mainRun w a = Except.ok (1, tr)
      ∧ (∃ s, Ev.err s ∈ tr) ∧ ∀ t f, Ev.spawn t f ∉ tr := by
  have hne : a.tests.isEmpty = false := by
    cases htests : a.tests with
    | nil => rw [htests] at hmem; cases hmem
    | cons x xs => rfl
  have h1 : ¬ (a.tests.isEmpty ∧ ¬ a.all) := by
    rintro ⟨he, _⟩
    rw [hne] at he
    cases he
  have heff : effectiveTests a = a.tests := by
    simp [effectiveTests, hne]
  have herr : ∃ e, expandTests w (effectiveTests a) = Except.error e := by
    rw [heff]
    exact (expandTests_error_iff w a.tests).mpr ⟨arg, hmem, hdir, hname⟩
  obtain ⟨e, he⟩ := herr
  refine ⟨[Ev.err (e ++ " is not a valid gyp test name.")], ?_,
    ⟨_, List.mem_singleton_self _⟩, by simp⟩
  unfold mainRun
  rw [if_neg h1, he]

/-- C6 witness: the fatal-invalid-name theorem at a concrete bad argument. -/
theorem invalid_test_name_fatal_witness :
    ∃ tr, mainRun wCex aInvalid = Except.ok (1, tr)
      ∧ (∃ s, Ev.err s ∈ tr) ∧ ∀ t f, Ev.spawn t f ∉ tr :=
  invalid_test_name_fatal wCex aInvalid "nope.txt" (by decide) rfl (by decide)

end Gyptest
